import Mathlib

/-!
A shallow embedding of the arena allocator in `src/mavalloc.c`.

The C globals (`pool`, `pool_size`, `alloc_algorithm`, `ledger_top`, the
`ledger` array, and the two function-local `static` caches: `ptr` in
`traverse_back` and `last_ptr` in `next_fit`) are collected in one state
record.  The `ledger` array is modelled as a total function `Int → Node` so
that the out-of-bounds accesses the C code can perform at index `-1` land in
a distinct virtual cell; `mavalloc_freeCore` additionally reports (as a
`Bool`) whether a coalescing step subscripted the array with a negative
index.  The pool pointer is abstracted as a base address: a node's `arena`
field is `some k` for the C pointer `pool + k`, and `none` for `NULL`.
C `size_t` values are embedded as `Nat` reduced modulo `2^64` where the code
can overflow; `int`/`long` values as `Int`, with the implementation-defined
narrowing conversion from `size_t` to `int` modelled as two-complement
wrapping (`intOfSizeT`).  Every loop takes explicit fuel and returns `none`
when the fuel runs out, so a diverging C loop is a computation that is `none`
at every fuel.
-/

namespace Mavalloc

/-- Modelled from the spec: the `ALGORITHM` enumeration is declared in
`mavalloc.h`, which is not under `src/`; the spec lists the four placement
strategies FirstFit, NextFit, BestFit, WorstFit. -/
inductive ALGORITHM
  | FIRST_FIT
  | NEXT_FIT
  | BEST_FIT
  | WORST_FIT
deriving DecidableEq

/-- enum TYPE: P = process allocation, H = hole. -/
inductive TYPE
  | P
  | H
deriving DecidableEq

/-- struct Node of mavalloc.c. -/
structure Node where
  size : Nat
  type : TYPE
  arena : Option Nat
  next : Int
  previous : Int
deriving DecidableEq

/-- A zero-filled Node, the contents of the zero-started C globals:
null arena, size 0, type `P` (the enumerator with value 0), links 0. -/
def Node.zero : Node :=
  { size := 0, type := TYPE.P, arena := none, next := 0, previous := 0 }

/-- The allocator state: the ledger array plus every mutable global and
function-local static of mavalloc.c. -/
structure AState where
  ledger : Int → Node
  ledger_top : Int
  tb_ptr : Int
  nf_last : Int
  pool_size : Nat
  alloc_algorithm : ALGORITHM

/-- Write v to ledger slot i (a function update). -/
def upd (f : Int → Node) (i : Int) (v : Node) : Int → Node :=
  fun j => if j = i then v else f j

def MAX_ALLOCS : Int := 10000

def SIZE_T_MOD : Nat := 2 ^ 64

/-- size_t addition (wraps modulo 2^64). -/
def addSizeT (a b : Nat) : Nat := (a + b) % SIZE_T_MOD

/-- size_t subtraction (wraps modulo 2^64). -/
def subSizeT (a b : Nat) : Nat :=
  (a % SIZE_T_MOD + (SIZE_T_MOD - b % SIZE_T_MOD)) % SIZE_T_MOD

/-- The value of a (possibly negative) integer converted to size_t. -/
def toSizeT (n : Int) : Nat := (n % (SIZE_T_MOD : Int)).toNat

/-- Modelled from the spec: the `ALIGN4` macro is defined in `mavalloc.h`,
which is not under `src/`; per the spec, "all internally tracked sizes are
rounded up to a 4-byte boundary", so `ALIGN4` rounds its argument up to the
next multiple of 4 (results are reduced modulo 2^64 wherever the C code
stores them in a size_t). -/
def ALIGN4 (s : Nat) : Nat := ((s + 3) / 4) * 4

def INT_MAX : Int := 2147483647

/-- The value of a size_t stored into a C `int` (two-complement wrap). -/
def intOfSizeT (s : Nat) : Int :=
  if s % 2 ^ 32 < 2 ^ 31 then ((s % 2 ^ 32 : Nat) : Int)
  else ((s % 2 ^ 32 : Nat) : Int) - 2 ^ 32

/-- The value of a size_t cast to a C `long` (64-bit, two-complement wrap). -/
def longOfSizeT (s : Nat) : Int :=
  if s % 2 ^ 64 < 2 ^ 63 then ((s % 2 ^ 64 : Nat) : Int)
  else ((s % 2 ^ 64 : Nat) : Int) - 2 ^ 64

/-- Pool-pointer arithmetic `(void*)((long long)arena + size)`.  A `NULL`
arena never reaches this operation on any path verified below; the model
keeps `NULL` fixed there. -/
def arenaAdd : Option Nat → Nat → Option Nat
  | none, _ => none
  | some a, s => some (a + s)

/-- The program-start state: all C globals zero-started (note the zero, not
sentinel, list links of untouched ledger slots), `ledger_top = -1`. -/
def startState : AState :=
  { ledger := fun _ => Node.zero
    ledger_top := -1
    tb_ptr := 0
    nf_last := 0
    pool_size := 0
    alloc_algorithm := ALGORITHM.FIRST_FIT }

/-- The ledger after mavalloc_init: slot 0 is the single hole spanning the
pool; the loop resets slots 1 .. MAX_ALLOCS-1 but does not touch their
`type` field. -/
def initLedger (old : Int → Node) (psize : Nat) : Int → Node :=
  fun i =>
    if i = 0 then
      { size := psize, type := TYPE.H, arena := some 0, next := -1, previous := -1 }
    else if 1 ≤ i ∧ i < MAX_ALLOCS then
      { size := 0, type := (old i).type, arena := none, next := -1, previous := -1 }
    else old i

/-- int mavalloc_init(size_t size, enum ALGORITHM algorithm).
`size` is the size_t value of the argument; `mallocOk` says whether the
pool reservation (`malloc`) succeeds.  Note that the C test `if (size < 0)`
compares an unsigned size_t and is therefore never true; it is kept
verbatim over the embedded value. -/
def mavalloc_init (size : Nat) (mallocOk : Bool) (algorithm : ALGORITHM)
    (st : AState) : Int × AState :=
  let st0 := { st with alloc_algorithm := algorithm }
  if (size : Int) < 0 then (-1, st0)
  else
    let psize := ALIGN4 size % SIZE_T_MOD
    let st1 := { st0 with pool_size := psize }
    if mallocOk = false then (-1, st1)
    else
      (0, { st1 with ledger := initLedger st1.ledger psize, ledger_top := 0 })

/-- The while loop of traverse_back: follow `previous` links until the
sentinel -1 is the next step. -/
def walkPrev (le : Int → Node) : Nat → Int → Option Int
  | 0, _ => none
  | fuel + 1, ptr =>
    if (le ptr).previous = -1 then some ptr
    else walkPrev le fuel (le ptr).previous

/-- int traverse_back(): validate the static cache (reset to 0 when the
cached slot's `next` is the sentinel), then walk `previous` links; the
cache keeps the returned index. -/
def traverse_back (fuel : Nat) (st : AState) : Option (Int × AState) :=
  let p0 := if (st.ledger st.tb_ptr).next = -1 then 0 else st.tb_ptr
  match walkPrev st.ledger fuel p0 with
  | none => none
  | some h => some (h, { st with tb_ptr := h })

/-- The scanning loop shared by first_fit and next_fit:
while (ptr != -1 and (size too small or slot is a process)) advance. -/
def ffLoop (le : Int → Node) (size : Nat) : Nat → Int → Option Int
  | 0, _ => none
  | fuel + 1, ptr =>
    if ptr = -1 then some ptr
    else if (le ptr).size < size ∨ (le ptr).type = TYPE.P then
      ffLoop le size fuel (le ptr).next
    else some ptr

/-- int first_fit(size_t size). -/
def first_fit (fuel : Nat) (st : AState) (size : Nat) : Option (Int × AState) :=
  match traverse_back fuel st with
  | none => none
  | some (h, st1) =>
    match ffLoop st1.ledger size fuel h with
    | none => none
    | some p => some (p, st1)

/-- int next_fit(size_t size): scan from the static `last_ptr`; on reaching
the tail without success fall back to first_fit; store the result back in
`last_ptr`. -/
def next_fit (fuel : Nat) (st : AState) (size : Nat) : Option (Int × AState) :=
  match ffLoop st.ledger size fuel st.nf_last with
  | none => none
  | some p =>
    if p = -1 then
      match first_fit fuel st size with
      | none => none
      | some (q, st1) => some (q, { st1 with nf_last := q })
    else some (p, { st with nf_last := p })

/-- The loop of worst_fit; `max_hole_size` is a C `int`, the comparison
casts the candidate size to `long`. -/
def wfLoop (le : Int → Node) (size : Nat) :
    Nat → Int → Int → Int → Option Int
  | 0, _, _, _ => none
  | fuel + 1, ptr, max_hole_idx, max_hole_size =>
    if ptr = -1 then some max_hole_idx
    else if (le ptr).type = TYPE.H ∧ size ≤ (le ptr).size ∧
        max_hole_size < longOfSizeT (le ptr).size then
      wfLoop le size fuel (le ptr).next ptr (intOfSizeT (le ptr).size)
    else wfLoop le size fuel (le ptr).next max_hole_idx max_hole_size

/-- int worst_fit(size_t size): largest qualifying hole, trackers start at
index -1 and size -1. -/
def worst_fit (fuel : Nat) (st : AState) (size : Nat) : Option (Int × AState) :=
  match traverse_back fuel st with
  | none => none
  | some (h, st1) =>
    match wfLoop st1.ledger size fuel h (-1) (-1) with
    | none => none
    | some p => some (p, st1)

/-- The loop of best_fit; `min_hole_size` is a C `int` starting at INT_MAX. -/
def bfLoop (le : Int → Node) (size : Nat) :
    Nat → Int → Int → Int → Option Int
  | 0, _, _, _ => none
  | fuel + 1, ptr, min_hole_idx, min_hole_size =>
    if ptr = -1 then some min_hole_idx
    else if (le ptr).type = TYPE.H ∧ size ≤ (le ptr).size ∧
        longOfSizeT (le ptr).size < min_hole_size then
      bfLoop le size fuel (le ptr).next ptr (intOfSizeT (le ptr).size)
    else bfLoop le size fuel (le ptr).next min_hole_idx min_hole_size

/-- int best_fit(size_t size). -/
def best_fit (fuel : Nat) (st : AState) (size : Nat) : Option (Int × AState) :=
  match traverse_back fuel st with
  | none => none
  | some (h, st1) =>
    match bfLoop st1.ledger size fuel h (-1) INT_MAX with
    | none => none
    | some p => some (p, st1)

/-- The switch on `alloc_algorithm` at the start of mavalloc_alloc. -/
def strategySelect (fuel : Nat) (st : AState) (size : Nat) :
    Option (Int × AState) :=
  match st.alloc_algorithm with
  | ALGORITHM.FIRST_FIT => first_fit fuel st size
  | ALGORITHM.NEXT_FIT => next_fit fuel st size
  | ALGORITHM.WORST_FIT => worst_fit fuel st size
  | ALGORITHM.BEST_FIT => best_fit fuel st size

/-- The ledger after the split branch of mavalloc_alloc, performing the
nine assignments of the C code in order (`top` is the already incremented
ledger_top). -/
def allocSplit (le0 : Int → Node) (top idx : Int) (size : Nat) : Int → Node :=
  let le1 := upd le0 top { le0 top with size := size }
  let le2 := upd le1 top { le1 top with type := TYPE.P }
  let le3 := upd le2 top { le2 top with previous := (le2 idx).previous }
  let le4 :=
    if (le3 idx).previous ≠ -1 then
      upd le3 ((le3 idx).previous)
        { le3 ((le3 idx).previous) with next := top }
    else le3
  let le5 := upd le4 top { le4 top with next := idx }
  let le6 := upd le5 idx { le5 idx with previous := top }
  let le7 := upd le6 idx { le6 idx with size := subSizeT ((le6 idx).size) size }
  let le8 := upd le7 top { le7 top with arena := (le7 idx).arena }
  upd le8 idx { le8 idx with arena := arenaAdd ((le8 idx).arena) size }

/-- void * mavalloc_alloc(size_t size).  Returns the handle (`none` for the
C `NULL`) and the new state; the outer `none` is fuel exhaustion, i.e. a
diverging scan. -/
def mavalloc_alloc (fuel : Nat) (st : AState) (sizeReq : Nat) :
    Option (Option Nat × AState) :=
  let size := ALIGN4 sizeReq % SIZE_T_MOD
  match strategySelect fuel st size with
  | none => none
  | some (idx, st1) =>
    if idx = -1 then some (none, st1)
    else if (st1.ledger idx).size = size then
      let leP := upd st1.ledger idx { st1.ledger idx with type := TYPE.P }
      some ((st1.ledger idx).arena, { st1 with ledger := leP })
    else
      let top := st1.ledger_top + 1
      let le9 := allocSplit st1.ledger top idx size
      some ((le9 top).arena, { st1 with ledger := le9, ledger_top := top })

/-- The search loop of mavalloc_free:
while (i != -1 and ledger[i].arena != ptr) advance. -/
def findArena (le : Int → Node) (ptr : Option Nat) : Nat → Int → Option Int
  | 0, _ => none
  | fuel + 1, i =>
    if i = -1 then some i
    else if (le i).arena = ptr then some i
    else findArena le ptr fuel (le i).next

/-- void mavalloc_free(void *ptr), instrumented: the returned Bool is true
exactly when a coalescing step subscripted `ledger` with a negative index
(an out-of-bounds access in the C program; the model lets the write land in
the virtual cell at that index). -/
def mavalloc_freeCore (fuel : Nat) (st : AState) (ptr : Option Nat) :
    Option (AState × Bool) :=
  match ptr with
  | none => some (st, false)
  | some _ =>
    match traverse_back fuel st with
    | none => none
    | some (h, st1) =>
      match findArena st1.ledger ptr fuel h with
      | none => none
      | some i =>
        if i = -1 then some (st1, false)
        else
          let le0 := upd st1.ledger i { st1.ledger i with type := TYPE.H }
          -- coalesce backwards
          let back : Bool :=
            (le0 i).previous ≠ -1 ∧ (le0 ((le0 i).previous)).type = TYPE.H
          let step1 :=
            if back then
              let p := (le0 i).previous
              let leA := upd le0 p
                { le0 p with size := addSizeT ((le0 p).size) ((le0 i).size) }
              let topA := if i = st1.ledger_top then st1.ledger_top - 1
                else st1.ledger_top
              let i2 := (leA i).previous
              let j0 := (leA i2).next
              let leB := upd leA i2 { leA i2 with next := (leA j0).next }
              let j1 := (leB i2).next
              let leC := upd leB j1 { leB j1 with previous := i2 }
              (leC, topA, i2, decide (j0 < 0) || decide (j1 < 0))
            else (le0, st1.ledger_top, i, false)
          -- coalesce forward
          let le1 := step1.1
          let i1 := step1.2.2.1
          let fwd : Bool :=
            (le1 i1).next ≠ -1 ∧ (le1 ((le1 i1).next)).type = TYPE.H
          let step2 :=
            if fwd then
              let j2 := (le1 i1).next
              let leD := upd le1 i1
                { le1 i1 with size := addSizeT ((le1 i1).size) ((le1 j2).size) }
              let leE := upd leD i1 { leD i1 with next := (leD ((leD i1).next)).next }
              let j3 := (leE i1).next
              let leF := upd leE j3 { leE j3 with previous := i1 }
              (leF, decide (j3 < 0))
            else (le1, false)
          some ({ st1 with ledger := step2.1, ledger_top := step1.2.1 },
            step1.2.2.2 || step2.2)

/-- void mavalloc_free(void *ptr) (the observable state change). -/
def mavalloc_free (fuel : Nat) (st : AState) (ptr : Option Nat) :
    Option AState :=
  (mavalloc_freeCore fuel st ptr).map (fun x => x.1)

/-- The observation used below to read off the live list: the indices
reached from `i` by following `next` links until the sentinel -1 (the walk
mavalloc_size and the scans perform; stale links are -1 or nonnegative, so
stopping at -1 agrees with the `i >= 0` guard of mavalloc_size). -/
def chainFrom (le : Int → Node) : Nat → Int → Option (List Int)
  | 0, _ => none
  | fuel + 1, i =>
    if i = -1 then some []
    else
      match chainFrom le fuel (le i).next with
      | none => none
      | some is => some (i :: is)

/-- The live list of a state: the next-chain from the traverse_back head. -/
def liveChain (fuel : Nat) (st : AState) : Option (List Int) :=
  match traverse_back fuel st with
  | none => none
  | some (h, st1) => chainFrom st1.ledger fuel h

/-- The extents (arena, size, type) of the given ledger slots. -/
def extentsOf (st : AState) (is : List Int) : List (Option Nat × Nat × TYPE) :=
  is.map (fun i => ((st.ledger i).arena, (st.ledger i).size, (st.ledger i).type))

/-- The extents of the live list, in linked-list order. -/
def extents (fuel : Nat) (st : AState) :
    Option (List (Option Nat × Nat × TYPE)) :=
  (liveChain fuel st).map (extentsOf st)

/-- Two extents overlap when neither ends at or before the start of the
other. -/
def extOverlap (a : Option Nat × Nat × TYPE) (b : Option Nat × Nat × TYPE) :
    Bool :=
  match a.1, b.1 with
  | some x, some y => max x y < min (x + a.2.1) (y + b.2.1)
  | _, _ => false

/-- Some two distinct entries of the extent list overlap. -/
def anyOverlap : List (Option Nat × Nat × TYPE) → Bool
  | [] => false
  | e :: rest => rest.any (fun f => extOverlap e f) || anyOverlap rest

/-- The extent list tiles [pos, cap): each entry starts where the previous
one ended and the last ends at cap. -/
def tilesFrom : Nat → Nat → List (Option Nat × Nat × TYPE) → Bool
  | pos, cap, [] => pos = cap
  | pos, cap, e :: rest =>
    decide (e.1 = some pos) && tilesFrom (pos + e.2.1) cap rest

/-- The live blocks, in list order, exactly partition [0, cap). -/
def partitionOK (cap : Nat) (l : List (Option Nat × Nat × TYPE)) : Bool :=
  tilesFrom 0 cap l

/-- Two address-adjacent list entries are both holes. -/
def hasAdjacentHoles : List (Option Nat × Nat × TYPE) → Bool
  | [] => false
  | [_] => false
  | a :: b :: rest =>
    (decide (a.2.2 = TYPE.H) && decide (b.2.2 = TYPE.H)) ||
      hasAdjacentHoles (b :: rest)

/-- A driver script step: one public call. -/
inductive Op
  | alloc (sz : Nat)
  | free (ptr : Option Nat)

/-- Run a straight-line script of public calls. -/
def runOps (fuel : Nat) : List Op → AState → Option AState
  | [], st => some st
  | Op.alloc sz :: ops, st =>
    match mavalloc_alloc fuel st sz with
    | none => none
    | some (_, st1) => runOps fuel ops st1
  | Op.free p :: ops, st =>
    match mavalloc_free fuel st p with
    | none => none
    | some st1 => runOps fuel ops st1

/-- mavalloc_free at this state and pointer exhausts every fuel: the C loop
never terminates. -/
def freeDiverges (st : AState) (ptr : Option Nat) : Prop :=
  ∀ fuel : Nat, mavalloc_free fuel st ptr = none

/-- A strategy result of -1 packaged as the C int, a found index as itself. -/
def optIdx : Option Int → Int
  | none => -1
  | some j => j

/-- Specification-side chooser written from the claim text for best_fit: the
qualifying Hole (a Hole at least as large as the request) of strictly
smallest size, ties resolved in favor of the first such Hole in address
order.  It is compared against the scanning loop of the source. -/
def chooseBest (le : Int → Node) (sz : Nat) : List Int → Option Int
  | [] => none
  | i :: is =>
    if (le i).type = TYPE.H ∧ sz ≤ (le i).size then
      match chooseBest le sz is with
      | none => some i
      | some j => if (le j).size < (le i).size then some j else some i
    else chooseBest le sz is

/-- Specification-side chooser written from the claim text for worst_fit:
the qualifying Hole of strictly largest size, ties resolved in favor of the
first such Hole in address order. -/
def chooseWorst (le : Int → Node) (sz : Nat) : List Int → Option Int
  | [] => none
  | i :: is =>
    if (le i).type = TYPE.H ∧ sz ≤ (le i).size then
      match chooseWorst le sz is with
      | none => some i
      | some j => if (le i).size < (le j).size then some j else some i
    else chooseWorst le sz is

/-! ### Concrete states and scripts used by individual claims

All scripts start from a successful `mavalloc_init`, so each final state is
reachable by a sequence of public calls. -/

/-- A 40-byte pool under NEXT_FIT. -/
def st40NF : AState := (mavalloc_init 40 true ALGORITHM.NEXT_FIT startState).2

/-- alloc(8); free(0); alloc(4): after free(0) coalesces the tail hole away,
the static next_fit cache still points at the spliced-out slot. -/
def c1ops : List Op := [Op.alloc 8, Op.free (some 0), Op.alloc 4]

/-- A 48-byte pool under NEXT_FIT. -/
def st48NF : AState := (mavalloc_init 48 true ALGORITHM.NEXT_FIT startState).2

/-- An 11-call script whose final live list holds two adjacent Holes. -/
def c2ops : List Op :=
  [Op.alloc 8, Op.alloc 8, Op.alloc 8, Op.alloc 8,
   Op.free (some 8), Op.free (some 16), Op.alloc 16, Op.alloc 8,
   Op.free (some 8), Op.free (some 24), Op.alloc 4]

/-- A 100-byte pool under FIRST_FIT after one alloc(4): freeing handle 0
merges the tail hole into the freed block. -/
def c4pre : Option AState :=
  runOps 20 [Op.alloc 4] (mavalloc_init 100 true ALGORITHM.FIRST_FIT startState).2

/-- The state after init(40, NEXT_FIT); alloc(8); free(0): its live list is
the single Hole spanning the pool, but the next_fit cache is stale. -/
def c6mid : Option AState :=
  runOps 20 [Op.alloc 8, Op.free (some 0)] st40NF

/-- A pool of 2^31 bytes under BEST_FIT, fresh from init. -/
def stBig : AState :=
  (mavalloc_init 2147483648 true ALGORITHM.BEST_FIT startState).2

/-- A 24-byte pool under NEXT_FIT. -/
def st24NF : AState := (mavalloc_init 24 true ALGORITHM.NEXT_FIT startState).2

/-- Six calls after which ledger_top = 1 while the stale next_fit cache
points at the dead hole in slot 2, so the next split reuses slot 2 itself. -/
def corruptOps6 : List Op :=
  [Op.alloc 8, Op.alloc 12, Op.free (some 8), Op.alloc 16,
   Op.free (some 0), Op.free (some 8)]

/-- The state reached by corruptOps6 from init(24, NEXT_FIT). -/
def stS6 : AState := (runOps 20 corruptOps6 st24NF).getD startState

/-- The state after one more alloc(12) from stS6: the fresh record slot
coincides with the selected hole, leaving a slot whose next and previous
links are the slot itself. -/
def stC : AState := ((mavalloc_alloc 20 stS6 12).getD (none, stS6)).2

/-- A 100-byte pool under FIRST_FIT (used by witnesses). -/
def st100FF : AState := (mavalloc_init 100 true ALGORITHM.FIRST_FIT startState).2

/-- A 100-byte pool under BEST_FIT (used by the C7 witness). -/
def st100BF : AState := (mavalloc_init 100 true ALGORITHM.BEST_FIT startState).2

/-- The state selected by first_fit at st100FF for an 8-byte request (the
traverse_back cache now holds the head). -/
def w8st1 : AState :=
  ((strategySelect 20 st100FF (ALIGN4 8 % SIZE_T_MOD)).getD (-1, st100FF)).2

/-- The state after first_fit fails at st100FF for a 200-byte request. -/
def w9st1 : AState :=
  ((strategySelect 20 st100FF (ALIGN4 200 % SIZE_T_MOD)).getD (0, st100FF)).2

/-- The state after traverse_back at st100BF. -/
def w7st1 : AState :=
  ((traverse_back 20 st100BF).getD (-1, st100BF)).2

/-!  ## Theorems  -/

/-- C1.  The partition invariant fails on a reachable state: from
init(40, NEXT_FIT), the script alloc(8); free(0); alloc(4) leaves a live
list whose extents are Hole [0,40), Process [8,12), Hole [12,40) — two of
them overlap and they do not tile [0, 40).  The free coalesced the tail
hole into the freed head block, but next_fit's static last_ptr still named
the spliced-out slot, so the final alloc split a dead hole and spliced it
back into the list. -/
theorem next_fit_stale_cache_breaks_partition :
    (runOps 20 c1ops st40NF).bind (extents 20) =
      some [(some 0, 40, TYPE.H), (some 8, 4, TYPE.P), (some 12, 28, TYPE.H)] ∧
    anyOverlap
      [(some 0, 40, TYPE.H), (some 8, 4, TYPE.P), (some 12, 28, TYPE.H)] = true ∧
    partitionOK 40
      [(some 0, 40, TYPE.H), (some 8, 4, TYPE.P), (some 12, 28, TYPE.H)] = false := by
  refine ⟨by decide, by decide, by decide⟩

/-- C2.  The no-adjacent-holes invariant fails on a reachable state: from
init(48, NEXT_FIT), the 11-call script c2ops (whose final alloc(4) splits a
dead hole cached by next_fit) produces a live list containing the
consecutive Holes [20,24) and [24,32). -/
theorem next_fit_stale_cache_breaks_no_adjacent_holes :
    (runOps 30 c2ops st48NF).bind (extents 30) =
      some [(some 0, 8, TYPE.P), (some 8, 24, TYPE.H), (some 16, 4, TYPE.P),
            (some 20, 4, TYPE.H), (some 24, 8, TYPE.H), (some 32, 16, TYPE.P)] ∧
    hasAdjacentHoles
      [(some 0, 8, TYPE.P), (some 8, 24, TYPE.H), (some 16, 4, TYPE.P),
       (some 20, 4, TYPE.H), (some 24, 8, TYPE.H), (some 32, 16, TYPE.P)] = true := by
  refine ⟨by decide, by decide⟩

/-- C4.  mavalloc_free subscripts the ledger at index -1 on the trivially
reachable input init(100, FIRST_FIT); p := alloc(4); free(p): the forward
coalesce merges the tail hole, sets the freed block's next to -1, and then
executes the write of ledger[-1].previous.  The instrumented model reports
the negative subscript. -/
theorem free_coalesce_writes_ledger_at_minus_one :
    c4pre.bind (fun s => (mavalloc_freeCore 20 s (some 0)).map (fun x => x.2)) =
      some true := by
  decide

/-- C5.  mavalloc_init does not reject a negative capacity: the C test
size < 0 compares an unsigned size_t and never fires.  Calling
mavalloc_init((size_t)(-1), alg) makes ALIGN4 wrap the aligned size to 0,
and when the 0-byte reservation succeeds (malloc(0) may return non-null)
init returns 0 — success — instead of the claimed -1, with pool_size 0. -/
theorem init_negative_capacity_succeeds :
    toSizeT (-1) = 2 ^ 64 - 1 ∧
    (mavalloc_init (toSizeT (-1)) true ALGORITHM.FIRST_FIT startState).1 = 0 ∧
    (mavalloc_init (toSizeT (-1)) true ALGORITHM.FIRST_FIT startState).2.pool_size
      = 0 := by
  refine ⟨by decide, by decide, by decide⟩

/-- C6.  Conservation fails on a reachable state: at c6mid (reached by
init(40, NEXT_FIT); alloc(8); free(0)) the live list is the single Hole
[0,40) — a correct partition — yet alloc(4) succeeds with handle 8 and the
immediate free(8) leaves the single Hole [0,72): not the pre-allocation
partition.  The alloc had split a stale dead hole cached by next_fit. -/
theorem alloc_free_conservation_fails :
    c6mid.bind (extents 20) = some [(some 0, 40, TYPE.H)] ∧
    c6mid.bind (fun s => (mavalloc_alloc 20 s 4).map (fun r => r.1)) =
      some (some 8) ∧
    (c6mid.bind (fun s => runOps 20 [Op.alloc 4, Op.free (some 8)] s)).bind
      (extents 20) = some [(some 0, 72, TYPE.H)] ∧
    some [(some 0, 72, TYPE.H)] ≠
      (some [(some 0, 40, TYPE.H)] :
        Option (List (Option Nat × Nat × TYPE))) := by
  refine ⟨by decide, by decide, by decide, by decide⟩

/-- C7, counterexample.  At the reachable state stBig (a fresh pool of 2^31
bytes under BEST_FIT) the single live block is a qualifying Hole for a
4-byte request, yet best_fit returns the not-found sentinel -1: the int
tracker starts at INT_MAX and the strict comparison never admits a hole of
size at least INT_MAX.  The claim says -1 is returned exactly when no Hole
is large enough. -/
theorem best_fit_misses_int_max_hole :
    (best_fit 20 stBig 4).map (fun x => x.1) = some (-1) ∧
    (stBig.ledger 0).type = TYPE.H ∧ 4 ≤ (stBig.ledger 0).size := by
  refine ⟨by decide, by decide, by decide⟩

/-- C8, counterexample.  At the reachable state stS6 (after corruptOps6 from
init(24, NEXT_FIT)), next_fit selects the dead Hole in slot 2 of size 16 for
an aligned request of 12, and ledger_top + 1 equals the selected slot.  The
claim requires the Hole to keep the high remainder of size 16 - 12 = 4 and
the returned extent to be the Hole's old start (pool + 8); instead the nine
split assignments collapse onto one slot: the slot ends with size 0, its
own index as both links, and the call returns pool + 20. -/
theorem alloc_split_self_collision :
    runOps 20 corruptOps6 st24NF = some stS6 ∧
    (strategySelect 20 stS6 (ALIGN4 12 % SIZE_T_MOD)).map (fun x => x.1) =
      some 2 ∧
    stS6.ledger_top + 1 = 2 ∧
    (stS6.ledger 2).size = 16 ∧ (stS6.ledger 2).arena = some 8 ∧
    (mavalloc_alloc 20 stS6 12).map (fun r => r.1) = some (some 20) ∧
    mavalloc_alloc 20 stS6 12 = some (some 20, stC) ∧
    (stC.ledger 2).size = 0 ∧ (stC.ledger 2).next = 2 ∧
    (stC.ledger 2).previous = 2 ∧
    ¬ ((stC.ledger 2).size = 16 - 12) ∧
    ¬ ((some 20 : Option Nat) = some 8) := by
  refine ⟨rfl, by decide, by decide, by decide, by decide, by decide, rfl,
    by decide, by decide, by decide, by decide, by decide⟩

/-- A self-linked slot that does not hold the sought arena makes the search
loop of mavalloc_free run out of any fuel. -/
theorem findArena_selfloop (le : Int → Node) (p : Option Nat) (i : Int)
    (hi : i ≠ -1) (ha : (le i).arena ≠ p) (hnx : (le i).next = i) :
    ∀ fuel, findArena le p fuel i = none := by
  intro fuel
  induction fuel with
  | zero => rfl
  | succ n ih =>
    rw [show findArena le p (n + 1) i =
      (if i = -1 then some i else if (le i).arena = p then some i
        else findArena le p n (le i).next) from rfl]
    rw [if_neg hi, if_neg ha, hnx]
    exact ih

/-- When the search loop exhausts its fuel, mavalloc_freeCore reports fuel
exhaustion. -/
theorem freeCore_none_of_findArena_none (fuel : Nat) (st : AState) (p : Nat)
    (h : Int) (st1 : AState)
    (htb : traverse_back fuel st = some (h, st1))
    (hfa : findArena st1.ledger (some p) fuel h = none) :
    mavalloc_freeCore fuel st (some p) = none := by
  simp only [mavalloc_freeCore, htb, hfa]

/-- When the cached slot looks valid and is already the head, traverse_back
returns it at once. -/
theorem traverse_back_cached_head (fuel : Nat) (st : AState)
    (h1 : (st.ledger st.tb_ptr).next ≠ -1)
    (h2 : (st.ledger st.tb_ptr).previous = -1) :
    traverse_back (fuel + 1) st =
      some (st.tb_ptr, { st with tb_ptr := st.tb_ptr }) := by
  simp only [traverse_back, if_neg h1]
  rw [show walkPrev st.ledger (fuel + 1) st.tb_ptr =
    (if (st.ledger st.tb_ptr).previous = -1 then some st.tb_ptr
      else walkPrev st.ledger fuel (st.ledger st.tb_ptr).previous) from rfl]
  rw [if_pos h2]

/-- C10.  On the reachable state stC (reached from init(24, NEXT_FIT) by the
seven calls of corruptOps6 followed by alloc(12)), slot 2 of the live list
links to itself, so mavalloc_free with the untracked pointer pool + 4
(tracked starts are pool + 0 and pool + 20) never terminates: its search
loop returns none at every fuel.  The claim promises a silent no-op that
returns normally. -/
theorem free_untracked_pointer_diverges :
    runOps 20 corruptOps6 st24NF = some stS6 ∧
    mavalloc_alloc 20 stS6 12 = some (some 20, stC) ∧
    stC.tb_ptr = 1 ∧ (stC.ledger 1).previous = -1 ∧
    (stC.ledger 1).next = 2 ∧ (stC.ledger 1).arena = some 0 ∧
    (stC.ledger 2).arena = some 20 ∧ (stC.ledger 2).next = 2 ∧
    freeDiverges stC (some 4) := by
  refine ⟨rfl, rfl, by decide, by decide, by decide, by decide, by decide,
    by decide, ?_⟩
  have htb1 : stC.tb_ptr = 1 := by decide
  have hnx1 : (stC.ledger 1).next = 2 := by decide
  have hpv1 : (stC.ledger 1).previous = -1 := by decide
  have har1 : (stC.ledger 1).arena ≠ some 4 := by decide
  have har2 : (stC.ledger 2).arena ≠ some 4 := by decide
  have hnx2 : (stC.ledger 2).next = 2 := by decide
  intro fuel
  cases fuel with
  | zero => rfl
  | succ f =>
    have h1ne : (stC.ledger stC.tb_ptr).next ≠ -1 := by
      rw [htb1, hnx1]; decide
    have h2pv : (stC.ledger stC.tb_ptr).previous = -1 := by
      rw [htb1]; exact hpv1
    have htb := traverse_back_cached_head f stC h1ne h2pv
    have hfa : findArena stC.ledger (some 4) (f + 1) stC.tb_ptr = none := by
      rw [htb1]
      rw [show findArena stC.ledger (some 4) (f + 1) 1 =
        (if (1 : Int) = -1 then some 1
          else if (stC.ledger 1).arena = some 4 then some 1
          else findArena stC.ledger (some 4) f (stC.ledger 1).next) from rfl]
      rw [if_neg (by decide : ¬ (1 : Int) = -1), if_neg har1, hnx1]
      exact findArena_selfloop stC.ledger (some 4) 2 (by decide) har2 hnx2 f
    have hcore := freeCore_none_of_findArena_none (f + 1) stC 4 stC.tb_ptr
      { stC with tb_ptr := stC.tb_ptr } htb hfa
    rw [show mavalloc_free (f + 1) stC (some 4) =
      (mavalloc_freeCore (f + 1) stC (some 4)).map (fun x => x.1) from rfl]
    rw [hcore]
    rfl

/-- traverse_back only rewrites its cache: every other state component is
untouched. -/
theorem traverse_back_state (fuel : Nat) (st st1 : AState) (h : Int)
    (htb : traverse_back fuel st = some (h, st1)) :
    st1.ledger = st.ledger ∧ st1.ledger_top = st.ledger_top ∧
    st1.nf_last = st.nf_last ∧ st1.pool_size = st.pool_size ∧
    st1.alloc_algorithm = st.alloc_algorithm := by
  simp only [traverse_back] at htb
  split at htb
  · exact absurd htb (by simp)
  · simp only [Option.some.injEq, Prod.mk.injEq] at htb
    obtain ⟨-, h2⟩ := htb
    subst h2
    exact ⟨rfl, rfl, rfl, rfl, rfl⟩

/-- first_fit only rewrites the traverse_back cache. -/
theorem first_fit_state (fuel : Nat) (st st1 : AState) (q : Int) (size : Nat)
    (hf : first_fit fuel st size = some (q, st1)) :
    st1.ledger = st.ledger ∧ st1.ledger_top = st.ledger_top ∧
    st1.nf_last = st.nf_last ∧ st1.pool_size = st.pool_size ∧
    st1.alloc_algorithm = st.alloc_algorithm := by
  simp only [first_fit] at hf
  split at hf
  · exact absurd hf (by simp)
  case _ h st2 heq =>
    split at hf
    · exact absurd hf (by simp)
    · simp only [Option.some.injEq, Prod.mk.injEq] at hf
      obtain ⟨-, h2⟩ := hf
      subst h2
      exact traverse_back_state fuel st st2 h heq

/-- next_fit only rewrites the two caches. -/
theorem next_fit_state (fuel : Nat) (st st1 : AState) (q : Int) (size : Nat)
    (hf : next_fit fuel st size = some (q, st1)) :
    st1.ledger = st.ledger ∧ st1.ledger_top = st.ledger_top ∧
    st1.pool_size = st.pool_size ∧
    st1.alloc_algorithm = st.alloc_algorithm := by
  simp only [next_fit] at hf
  split at hf
  · exact absurd hf (by simp)
  case _ p heq =>
    by_cases hp : p = -1
    · rw [if_pos hp] at hf
      split at hf
      · exact absurd hf (by simp)
      case _ q2 st2 heq2 =>
        simp only [Option.some.injEq, Prod.mk.injEq] at hf
        obtain ⟨-, h2⟩ := hf
        subst h2
        have := first_fit_state fuel st st2 q2 size heq2
        exact ⟨this.1, this.2.1, this.2.2.2.1, this.2.2.2.2⟩
    · rw [if_neg hp] at hf
      simp only [Option.some.injEq, Prod.mk.injEq] at hf
      obtain ⟨-, h2⟩ := hf
      subst h2
      exact ⟨rfl, rfl, rfl, rfl⟩

/-- worst_fit only rewrites the traverse_back cache. -/
theorem worst_fit_state (fuel : Nat) (st st1 : AState) (q : Int) (size : Nat)
    (hf : worst_fit fuel st size = some (q, st1)) :
    st1.ledger = st.ledger ∧ st1.ledger_top = st.ledger_top ∧
    st1.nf_last = st.nf_last ∧ st1.pool_size = st.pool_size ∧
    st1.alloc_algorithm = st.alloc_algorithm := by
  simp only [worst_fit] at hf
  split at hf
  · exact absurd hf (by simp)
  case _ h st2 heq =>
    split at hf
    · exact absurd hf (by simp)
    · simp only [Option.some.injEq, Prod.mk.injEq] at hf
      obtain ⟨-, h2⟩ := hf
      subst h2
      exact traverse_back_state fuel st st2 h heq

/-- best_fit only rewrites the traverse_back cache. -/
theorem best_fit_state (fuel : Nat) (st st1 : AState) (q : Int) (size : Nat)
    (hf : best_fit fuel st size = some (q, st1)) :
    st1.ledger = st.ledger ∧ st1.ledger_top = st.ledger_top ∧
    st1.nf_last = st.nf_last ∧ st1.pool_size = st.pool_size ∧
    st1.alloc_algorithm = st.alloc_algorithm := by
  simp only [best_fit] at hf
  split at hf
  · exact absurd hf (by simp)
  case _ h st2 heq =>
    split at hf
    · exact absurd hf (by simp)
    · simp only [Option.some.injEq, Prod.mk.injEq] at hf
      obtain ⟨-, h2⟩ := hf
      subst h2
      exact traverse_back_state fuel st st2 h heq

/-- Placement strategies never modify a ledger record, ledger_top, the pool
size or the configured algorithm. -/
theorem strategySelect_state (fuel : Nat) (st st1 : AState) (q : Int)
    (size : Nat) (hf : strategySelect fuel st size = some (q, st1)) :
    st1.ledger = st.ledger ∧ st1.ledger_top = st.ledger_top ∧
    st1.pool_size = st.pool_size ∧
    st1.alloc_algorithm = st.alloc_algorithm := by
  unfold strategySelect at hf
  cases halg : st.alloc_algorithm with
  | FIRST_FIT =>
    rw [halg] at hf
    have := first_fit_state fuel st st1 q size hf
    exact ⟨this.1, this.2.1, this.2.2.2.1, this.2.2.2.2.trans halg⟩
  | NEXT_FIT =>
    rw [halg] at hf
    have := next_fit_state fuel st st1 q size hf
    exact ⟨this.1, this.2.1, this.2.2.1, this.2.2.2.trans halg⟩
  | WORST_FIT =>
    rw [halg] at hf
    have := worst_fit_state fuel st st1 q size hf
    exact ⟨this.1, this.2.1, this.2.2.2.1, this.2.2.2.2.trans halg⟩
  | BEST_FIT =>
    rw [halg] at hf
    have := best_fit_state fuel st st1 q size hf
    exact ⟨this.1, this.2.1, this.2.2.2.1, this.2.2.2.2.trans halg⟩

/-- C9.  When the configured strategy reports no qualifying Hole (-1),
mavalloc_alloc returns NULL and no ledger record, the record count, the pool
size or the algorithm has been modified (only the two search caches may have
moved). -/
theorem alloc_no_hole_no_side_effects (fuel : Nat) (st st1 : AState)
    (sizeReq : Nat)
    (hsel : strategySelect fuel st (ALIGN4 sizeReq % SIZE_T_MOD) =
      some (-1, st1)) :
    mavalloc_alloc fuel st sizeReq = some (none, st1) ∧
    st1.ledger = st.ledger ∧ st1.ledger_top = st.ledger_top ∧
    st1.pool_size = st.pool_size ∧
    st1.alloc_algorithm = st.alloc_algorithm := by
  have hc := strategySelect_state fuel st st1 (-1) (ALIGN4 sizeReq % SIZE_T_MOD)
    hsel
  refine ⟨?_, hc.1, hc.2.1, hc.2.2.1, hc.2.2.2⟩
  simp [mavalloc_alloc, hsel]

/-- Witness for C9 at init(100, FIRST_FIT) and request 200: the single Hole
of size 100 does not qualify, first_fit returns -1, and the allocation fails
with no ledger change. -/
theorem alloc_no_hole_no_side_effects_witness :
    (strategySelect 20 st100FF (ALIGN4 200 % SIZE_T_MOD) = some (-1, w9st1)) ∧
    (mavalloc_alloc 20 st100FF 200 = some (none, w9st1) ∧
     w9st1.ledger = st100FF.ledger ∧ w9st1.ledger_top = st100FF.ledger_top ∧
     w9st1.pool_size = st100FF.pool_size ∧
     w9st1.alloc_algorithm = st100FF.alloc_algorithm) :=
  ⟨rfl, alloc_no_hole_no_side_effects 20 st100FF w9st1 200 rfl⟩

theorem upd_self (f : Int → Node) (i : Int) (v : Node) : upd f i v i = v := by
  simp [upd]

theorem upd_ne (f : Int → Node) (i : Int) (v : Node) (j : Int) (h : j ≠ i) :
    upd f i v j = f j := by
  simp [upd, h]

/-- The scanning loop of first_fit and next_fit only answers an index other
than -1 when that slot is a Hole at least as large as the request. -/
theorem ffLoop_qualifies (le : Int → Node) (size : Nat) :
    ∀ (fuel : Nat) (p q : Int), ffLoop le size fuel p = some q → q ≠ -1 →
    (le q).type = TYPE.H ∧ size ≤ (le q).size := by
  intro fuel
  induction fuel with
  | zero => intro p q h; exact absurd h (by simp [ffLoop])
  | succ f ih =>
    intro p q h hq
    rw [show ffLoop le size (f + 1) p =
      (if p = -1 then some p
        else if (le p).size < size ∨ (le p).type = TYPE.P then
          ffLoop le size f (le p).next
        else some p) from rfl] at h
    by_cases hp : p = -1
    · rw [if_pos hp] at h
      injection h with h1
      subst h1
      exact absurd hp hq
    · rw [if_neg hp] at h
      by_cases hc : (le p).size < size ∨ (le p).type = TYPE.P
      · rw [if_pos hc] at h
        exact ih _ q h hq
      · rw [if_neg hc] at h
        injection h with h1
        subst h1
        push_neg at hc
        refine ⟨?_, hc.1⟩
        cases htype : (le p).type with
        | P => exact absurd htype hc.2
        | H => rfl

/-- The worst_fit loop only answers an index other than -1 when that slot is
a qualifying Hole (provided the running maximum already is one or is -1). -/
theorem wfLoop_qualifies (le : Int → Node) (size : Nat) :
    ∀ (fuel : Nat) (p mi ms q : Int),
    (mi = -1 ∨ ((le mi).type = TYPE.H ∧ size ≤ (le mi).size)) →
    wfLoop le size fuel p mi ms = some q → q ≠ -1 →
    (le q).type = TYPE.H ∧ size ≤ (le q).size := by
  intro fuel
  induction fuel with
  | zero => intro p mi ms q _ h; exact absurd h (by simp [wfLoop])
  | succ f ih =>
    intro p mi ms q hmi h hq
    rw [show wfLoop le size (f + 1) p mi ms =
      (if p = -1 then some mi
        else if (le p).type = TYPE.H ∧ size ≤ (le p).size ∧
            ms < longOfSizeT (le p).size then
          wfLoop le size f (le p).next p (intOfSizeT (le p).size)
        else wfLoop le size f (le p).next mi ms) from rfl] at h
    by_cases hp : p = -1
    · rw [if_pos hp] at h
      injection h with h1
      subst h1
      rcases hmi with hmi | hmi
      · exact absurd hmi hq
      · exact hmi
    · rw [if_neg hp] at h
      by_cases hc : (le p).type = TYPE.H ∧ size ≤ (le p).size ∧
          ms < longOfSizeT (le p).size
      · rw [if_pos hc] at h
        exact ih _ p _ q (Or.inr ⟨hc.1, hc.2.1⟩) h hq
      · rw [if_neg hc] at h
        exact ih _ mi ms q hmi h hq

/-- The best_fit loop only answers an index other than -1 when that slot is
a qualifying Hole (provided the running minimum already is one or is -1). -/
theorem bfLoop_qualifies (le : Int → Node) (size : Nat) :
    ∀ (fuel : Nat) (p mi ms q : Int),
    (mi = -1 ∨ ((le mi).type = TYPE.H ∧ size ≤ (le mi).size)) →
    bfLoop le size fuel p mi ms = some q → q ≠ -1 →
    (le q).type = TYPE.H ∧ size ≤ (le q).size := by
  intro fuel
  induction fuel with
  | zero => intro p mi ms q _ h; exact absurd h (by simp [bfLoop])
  | succ f ih =>
    intro p mi ms q hmi h hq
    rw [show bfLoop le size (f + 1) p mi ms =
      (if p = -1 then some mi
        else if (le p).type = TYPE.H ∧ size ≤ (le p).size ∧
            longOfSizeT (le p).size < ms then
          bfLoop le size f (le p).next p (intOfSizeT (le p).size)
        else bfLoop le size f (le p).next mi ms) from rfl] at h
    by_cases hp : p = -1
    · rw [if_pos hp] at h
      injection h with h1
      subst h1
      rcases hmi with hmi | hmi
      · exact absurd hmi hq
      · exact hmi
    · rw [if_neg hp] at h
      by_cases hc : (le p).type = TYPE.H ∧ size ≤ (le p).size ∧
          longOfSizeT (le p).size < ms
      · rw [if_pos hc] at h
        exact ih _ p _ q (Or.inr ⟨hc.1, hc.2.1⟩) h hq
      · rw [if_neg hc] at h
        exact ih _ mi ms q hmi h hq

/-- Whatever strategy is configured, an index other than -1 selected by the
switch of mavalloc_alloc is a Hole at least as large as the request. -/
theorem strategySelect_qualifies (fuel : Nat) (st st1 : AState) (size : Nat)
    (q : Int) (hf : strategySelect fuel st size = some (q, st1))
    (hq : q ≠ -1) :
    (st1.ledger q).type = TYPE.H ∧ size ≤ (st1.ledger q).size := by
  have hle : st1.ledger = st.ledger := (strategySelect_state fuel st st1 q size hf).1
  rw [hle]
  unfold strategySelect at hf
  cases halg : st.alloc_algorithm with
  | FIRST_FIT =>
    rw [halg] at hf
    simp only [first_fit] at hf
    split at hf
    · exact absurd hf (by simp)
    case _ h st2 heq =>
      split at hf
      · exact absurd hf (by simp)
      case _ p heq2 =>
        simp only [Option.some.injEq, Prod.mk.injEq] at hf
        obtain ⟨h1, -⟩ := hf
        subst h1
        have h2 : st2.ledger = st.ledger := (traverse_back_state fuel st st2 h heq).1
        rw [h2] at heq2
        exact ffLoop_qualifies st.ledger size fuel h p heq2 hq
  | NEXT_FIT =>
    rw [halg] at hf
    simp only [next_fit] at hf
    split at hf
    · exact absurd hf (by simp)
    case _ p heq =>
      by_cases hp : p = -1
      · rw [if_pos hp] at hf
        split at hf
        · exact absurd hf (by simp)
        case _ q2 st2 heq2 =>
          simp only [Option.some.injEq, Prod.mk.injEq] at hf
          obtain ⟨h1, -⟩ := hf
          subst h1
          simp only [first_fit] at heq2
          split at heq2
          · exact absurd heq2 (by simp)
          case _ h st3 heq3 =>
            split at heq2
            · exact absurd heq2 (by simp)
            case _ p2 heq4 =>
              simp only [Option.some.injEq, Prod.mk.injEq] at heq2
              obtain ⟨h1, -⟩ := heq2
              subst h1
              have h3 : st3.ledger = st.ledger :=
                (traverse_back_state fuel st st3 h heq3).1
              rw [h3] at heq4
              exact ffLoop_qualifies st.ledger size fuel h p2 heq4 hq
      · rw [if_neg hp] at hf
        simp only [Option.some.injEq, Prod.mk.injEq] at hf
        obtain ⟨h1, -⟩ := hf
        subst h1
        exact ffLoop_qualifies st.ledger size fuel st.nf_last p heq hq
  | WORST_FIT =>
    rw [halg] at hf
    simp only [worst_fit] at hf
    split at hf
    · exact absurd hf (by simp)
    case _ h st2 heq =>
      split at hf
      · exact absurd hf (by simp)
      case _ p heq2 =>
        simp only [Option.some.injEq, Prod.mk.injEq] at hf
        obtain ⟨h1, -⟩ := hf
        subst h1
        have h2 : st2.ledger = st.ledger := (traverse_back_state fuel st st2 h heq).1
        rw [h2] at heq2
        exact wfLoop_qualifies st.ledger size fuel h (-1) (-1) p (Or.inl rfl)
          heq2 hq
  | BEST_FIT =>
    rw [halg] at hf
    simp only [best_fit] at hf
    split at hf
    · exact absurd hf (by simp)
    case _ h st2 heq =>
      split at hf
      · exact absurd hf (by simp)
      case _ p heq2 =>
        simp only [Option.some.injEq, Prod.mk.injEq] at hf
        obtain ⟨h1, -⟩ := hf
        subst h1
        have h2 : st2.ledger = st.ledger := (traverse_back_state fuel st st2 h heq).1
        rw [h2] at heq2
        exact bfLoop_qualifies st.ledger size fuel h (-1) INT_MAX p (Or.inl rfl)
          heq2 hq

theorem subSizeT_eq (a b : Nat) (hb : b ≤ a) (ha : a < SIZE_T_MOD) :
    subSizeT a b = a - b := by
  unfold subSizeT SIZE_T_MOD
  unfold SIZE_T_MOD at ha
  omega

/-- The nine split assignments leave the fresh slot as the new Process
record: the request size, the Hole's old start, linked in just before the
Hole (provided the fresh slot is distinct from the Hole's slot). -/
theorem allocSplit_top (le0 : Int → Node) (top idx : Int) (size : Nat)
    (hne : idx ≠ top) :
    allocSplit le0 top idx size top =
      { size := size, type := TYPE.P, arena := (le0 idx).arena,
        next := idx, previous := (le0 idx).previous } := by
  have hne2 : top ≠ idx := fun h => hne h.symm
  by_cases hpv : (le0 idx).previous = -1
  · simp [allocSplit, upd, hne, hne2, hpv]
  · by_cases hpt : (le0 idx).previous = top
    · have htopne : ¬(top = -1) := fun hh => hpv (hpt.trans hh)
      simp [allocSplit, upd, hne, hne2, hpv, hpt, htopne]
    · have hpt2 : ¬(top = (le0 idx).previous) := fun hh => hpt hh.symm
      by_cases hpi : (le0 idx).previous = idx
      · have hidxne : ¬(idx = -1) := fun hh => hpv (hpi.trans hh)
        simp [allocSplit, upd, hne, hne2, hpv, hpt, hpt2, hpi, hidxne]
      · have hpi2 : ¬(idx = (le0 idx).previous) := fun hh => hpi hh.symm
        simp [allocSplit, upd, hne, hne2, hpv, hpt, hpt2, hpi, hpi2]

/-- The nine split assignments shrink the Hole by the request, advance its
start by the request, and link it after the fresh slot (provided the fresh
slot is distinct from the Hole's slot). -/
theorem allocSplit_idx (le0 : Int → Node) (top idx : Int) (size : Nat)
    (hne : idx ≠ top) :
    (allocSplit le0 top idx size idx).previous = top ∧
    (allocSplit le0 top idx size idx).size = subSizeT ((le0 idx).size) size ∧
    (allocSplit le0 top idx size idx).arena =
      arenaAdd ((le0 idx).arena) size ∧
    (allocSplit le0 top idx size idx).type = (le0 idx).type := by
  have hne2 : top ≠ idx := fun h => hne h.symm
  by_cases hpv : (le0 idx).previous = -1
  · simp [allocSplit, upd, hne, hne2, hpv]
  · by_cases hpi : (le0 idx).previous = idx
    · have hidxne : ¬(idx = -1) := fun hh => hpv (hpi.trans hh)
      simp [allocSplit, upd, hne, hne2, hpv, hpi, hidxne]
    · have hpi2 : ¬(idx = (le0 idx).previous) := fun hh => hpi hh.symm
      by_cases hpt : (le0 idx).previous = top
      · have htopne : ¬(top = -1) := fun hh => hpv (hpt.trans hh)
        simp [allocSplit, upd, hne, hne2, hpv, hpi, hpi2, hpt, htopne]
      · have hpt2 : ¬(top = (le0 idx).previous) := fun hh => hpt hh.symm
        simp [allocSplit, upd, hne, hne2, hpv, hpi, hpi2, hpt, hpt2]

/-- The nine split assignments point the previous neighbor's next link at
the fresh slot (when that neighbor exists and is distinct from the fresh
slot). -/
theorem allocSplit_prev_next (le0 : Int → Node) (top idx : Int) (size : Nat)
    (hne : idx ≠ top)
    (hpv : (le0 idx).previous ≠ -1)
    (hpvt : (le0 idx).previous ≠ top) :
    (allocSplit le0 top idx size ((le0 idx).previous)).next = top := by
  have hne2 : top ≠ idx := fun h => hne h.symm
  by_cases hpi : (le0 idx).previous = idx
  · have hidxne : ¬(idx = -1) := fun hh => hpv (hpi.trans hh)
    have hit : ¬(idx = top) := fun hh => hne hh
    simp [allocSplit, upd, hne, hne2, hpv, hpvt, hpi, hidxne, hit]
  · simp [allocSplit, upd, hne, hne2, hpv, hpvt, hpi]

/-- The nine split assignments touch no slot other than the fresh slot, the
Hole, and the Hole's previous neighbor. -/
theorem allocSplit_other (le0 : Int → Node) (top idx : Int) (size : Nat)
    (j : Int) (hj1 : j ≠ top) (hj2 : j ≠ idx)
    (hj3 : j ≠ (le0 idx).previous) :
    allocSplit le0 top idx size j = le0 j := by
  by_cases hit : idx = top
  · subst hit
    by_cases hpv : (le0 idx).previous = -1
    · simp [allocSplit, upd, hj1, hj3, hpv]
    · simp [allocSplit, upd, hj1, hj3, hpv]
  · have hit2 : ¬(top = idx) := fun hh => hit hh.symm
    by_cases hpv : (le0 idx).previous = -1
    · simp [allocSplit, upd, hj1, hj2, hj3, hpv, hit, hit2]
    · by_cases hpt : (le0 idx).previous = top
      · have htopne : ¬(top = -1) := fun hh => hpv (hpt.trans hh)
        simp [allocSplit, upd, hj1, hj2, hj3, hpv, hit, hit2, hpt, htopne]
      · have hpt2 : ¬(top = (le0 idx).previous) := fun hh => hpt hh.symm
        simp [allocSplit, upd, hj1, hj2, hj3, hpv, hit, hit2, hpt, hpt2]

/-- C8 (amended).  When the strategy selects Hole h (and the fresh record
slot ledger_top + 1 is distinct from h, with the Hole's size in the size_t
range): an exact-fit request reclassifies h in place as a Process, returns
its extent and creates no record; otherwise one new Process record of the
aligned size is created at the fresh slot, linked immediately before h
(taking the Hole's old start), while h shrinks by the aligned request and
its start advances by the aligned request; the previous neighbor's next
link is moved to the fresh slot when that neighbor exists and is itself
distinct from the fresh slot, and no other slot changes. -/
theorem alloc_exact_and_split_effects (fuel : Nat) (st st1 : AState)
    (sizeReq : Nat) (idx : Int)
    (hsel : strategySelect fuel st (ALIGN4 sizeReq % SIZE_T_MOD) =
      some (idx, st1))
    (hidx : idx ≠ -1)
    (hszrange : (st1.ledger idx).size < SIZE_T_MOD) :
    ((st1.ledger idx).size = ALIGN4 sizeReq % SIZE_T_MOD →
      ∃ st2, mavalloc_alloc fuel st sizeReq =
          some ((st1.ledger idx).arena, st2) ∧
        st2.ledger_top = st1.ledger_top ∧
        st2.ledger idx = { st1.ledger idx with type := TYPE.P } ∧
        (∀ j, j ≠ idx → st2.ledger j = st1.ledger j)) ∧
    ((st1.ledger idx).size ≠ ALIGN4 sizeReq % SIZE_T_MOD →
     st1.ledger_top + 1 ≠ idx →
      ∃ st2, mavalloc_alloc fuel st sizeReq =
          some ((st1.ledger idx).arena, st2) ∧
        st2.ledger_top = st1.ledger_top + 1 ∧
        st2.ledger (st1.ledger_top + 1) =
          { size := ALIGN4 sizeReq % SIZE_T_MOD, type := TYPE.P,
            arena := (st1.ledger idx).arena, next := idx,
            previous := (st1.ledger idx).previous } ∧
        (st2.ledger idx).previous = st1.ledger_top + 1 ∧
        (st2.ledger idx).size =
          (st1.ledger idx).size - ALIGN4 sizeReq % SIZE_T_MOD ∧
        (st2.ledger idx).arena =
          arenaAdd ((st1.ledger idx).arena) (ALIGN4 sizeReq % SIZE_T_MOD) ∧
        ((st1.ledger idx).previous ≠ -1 →
          (st1.ledger idx).previous ≠ st1.ledger_top + 1 →
          (st2.ledger ((st1.ledger idx).previous)).next =
            st1.ledger_top + 1) ∧
        (∀ j, j ≠ st1.ledger_top + 1 → j ≠ idx →
          j ≠ (st1.ledger idx).previous → st2.ledger j = st1.ledger j)) := by
  have hqual := strategySelect_qualifies fuel st st1
    (ALIGN4 sizeReq % SIZE_T_MOD) idx hsel hidx
  constructor
  · intro hexact
    refine ⟨⟨upd st1.ledger idx { st1.ledger idx with type := TYPE.P },
      st1.ledger_top, st1.tb_ptr, st1.nf_last, st1.pool_size,
      st1.alloc_algorithm⟩, ?_, rfl, ?_, ?_⟩
    · simp only [mavalloc_alloc, hsel]
      rw [if_neg hidx, if_pos hexact]
    · exact upd_self st1.ledger idx _
    · intro j hj
      exact upd_ne st1.ledger idx _ j hj
  · intro hne hnet
    have hidxne : idx ≠ st1.ledger_top + 1 := fun hh => hnet hh.symm
    refine ⟨⟨allocSplit st1.ledger (st1.ledger_top + 1) idx
        (ALIGN4 sizeReq % SIZE_T_MOD),
      st1.ledger_top + 1, st1.tb_ptr, st1.nf_last, st1.pool_size,
      st1.alloc_algorithm⟩, ?_, rfl, ?_, ?_, ?_, ?_, ?_, ?_⟩
    · simp only [mavalloc_alloc, hsel]
      rw [if_neg hidx, if_neg hne,
        allocSplit_top st1.ledger (st1.ledger_top + 1) idx _ hidxne]
    · exact allocSplit_top st1.ledger _ idx _ hidxne
    · exact (allocSplit_idx st1.ledger _ idx _ hidxne).1
    · rw [(allocSplit_idx st1.ledger _ idx _ hidxne).2.1]
      exact subSizeT_eq _ _ hqual.2 hszrange
    · exact (allocSplit_idx st1.ledger _ idx _ hidxne).2.2.1
    · intro hpv hpvt
      exact allocSplit_prev_next st1.ledger _ idx _ hidxne hpv hpvt
    · intro j hj1 hj2 hj3
      exact allocSplit_other st1.ledger _ idx _ j hj1 hj2 hj3

/-- Witness for C8 at init(100, FIRST_FIT) and request 8: first_fit selects
Hole 0 of size 100 ≠ 8, the fresh slot is 1, and the split behaves as the
amended claim states. -/
theorem alloc_exact_and_split_effects_witness :
    (strategySelect 20 st100FF (ALIGN4 8 % SIZE_T_MOD) = some (0, w8st1) ∧
     (0 : Int) ≠ -1 ∧ (w8st1.ledger 0).size < SIZE_T_MOD ∧
     (w8st1.ledger 0).size ≠ ALIGN4 8 % SIZE_T_MOD ∧
     w8st1.ledger_top + 1 ≠ 0) ∧
    (∃ st2, mavalloc_alloc 20 st100FF 8 =
        some ((w8st1.ledger 0).arena, st2) ∧
      st2.ledger_top = w8st1.ledger_top + 1 ∧
      st2.ledger (w8st1.ledger_top + 1) =
        { size := ALIGN4 8 % SIZE_T_MOD, type := TYPE.P,
          arena := (w8st1.ledger 0).arena, next := 0,
          previous := (w8st1.ledger 0).previous } ∧
      (st2.ledger 0).previous = w8st1.ledger_top + 1 ∧
      (st2.ledger 0).size = (w8st1.ledger 0).size - ALIGN4 8 % SIZE_T_MOD ∧
      (st2.ledger 0).arena =
        arenaAdd ((w8st1.ledger 0).arena) (ALIGN4 8 % SIZE_T_MOD) ∧
      ((w8st1.ledger 0).previous ≠ -1 →
        (w8st1.ledger 0).previous ≠ w8st1.ledger_top + 1 →
        (st2.ledger ((w8st1.ledger 0).previous)).next =
          w8st1.ledger_top + 1) ∧
      (∀ j, j ≠ w8st1.ledger_top + 1 → j ≠ 0 →
        j ≠ (w8st1.ledger 0).previous → st2.ledger j = w8st1.ledger j)) :=
  ⟨⟨rfl, by decide, by decide, by decide, by decide⟩,
   (alloc_exact_and_split_effects 20 st100FF w8st1 8 0 rfl (by decide)
     (by decide)).2 (by decide) (by decide)⟩

theorem intOfSizeT_small (s : Nat) (h : s < 2 ^ 31) :
    intOfSizeT s = (s : Int) := by
  unfold intOfSizeT
  have h32 : s < 2 ^ 32 := lt_trans h (by norm_num)
  rw [Nat.mod_eq_of_lt h32, if_pos h]

theorem longOfSizeT_small (s : Nat) (h : s < 2 ^ 63) :
    longOfSizeT s = (s : Int) := by
  unfold longOfSizeT
  have h64 : s < 2 ^ 64 := lt_trans h (by norm_num)
  rw [Nat.mod_eq_of_lt h64, if_pos h]

/-- The best_fit loop computes the specification-side chooser over the
next-chain it scans, as long as every size on the chain stays below
INT_MAX (otherwise the int-typed tracker misbehaves). -/
theorem bfLoop_chooseBest (le : Int → Node) (sz : Nat) :
    ∀ (fuel : Nat) (p : Int) (is : List Int),
    chainFrom le fuel p = some is →
    (∀ i ∈ is, (le i).size < 2147483647) →
    ∀ (mi ms : Int),
    bfLoop le sz fuel p mi ms =
      some (match chooseBest le sz is with
            | none => mi
            | some j => if ((le j).size : Int) < ms then j else mi) := by
  intro fuel
  induction fuel with
  | zero => intro p is hch; exact absurd hch (by simp [chainFrom])
  | succ f ih =>
    intro p is hch hsmall mi ms
    by_cases hp : p = -1
    · subst hp
      have h2 : chainFrom le (f + 1) (-1) = some [] := rfl
      rw [h2] at hch
      injection hch with h3
      subst h3
      rfl
    · rw [show chainFrom le (f + 1) p =
        (if p = -1 then some [] else
          match chainFrom le f (le p).next with
          | none => none
          | some is2 => some (p :: is2)) from rfl, if_neg hp] at hch
      cases hch2 : chainFrom le f (le p).next with
      | none => rw [hch2] at hch; exact absurd hch (by simp)
      | some is2 =>
        rw [hch2] at hch
        simp only [Option.some.injEq] at hch
        subst hch
        have hsp : (le p).size < 2147483647 := hsmall p (by simp)
        have hsmall2 : ∀ i ∈ is2, (le i).size < 2147483647 :=
          fun i hi => hsmall i (by simp [hi])
        have hlong : longOfSizeT (le p).size = ((le p).size : Int) :=
          longOfSizeT_small _ (by omega)
        have hint : intOfSizeT (le p).size = ((le p).size : Int) :=
          intOfSizeT_small _ (by omega)
        rw [show bfLoop le sz (f + 1) p mi ms =
          (if p = -1 then some mi
            else if (le p).type = TYPE.H ∧ sz ≤ (le p).size ∧
                longOfSizeT (le p).size < ms then
              bfLoop le sz f (le p).next p (intOfSizeT (le p).size)
            else bfLoop le sz f (le p).next mi ms) from rfl, if_neg hp]
        rw [show chooseBest le sz (p :: is2) =
          (if (le p).type = TYPE.H ∧ sz ≤ (le p).size then
            match chooseBest le sz is2 with
            | none => some p
            | some j => if (le j).size < (le p).size then some j else some p
          else chooseBest le sz is2) from rfl]
        by_cases hq : (le p).type = TYPE.H ∧ sz ≤ (le p).size
        · rw [if_pos hq]
          by_cases hlt : ((le p).size : Int) < ms
          · rw [if_pos ⟨hq.1, hq.2, by rw [hlong]; exact hlt⟩, hint,
              ih _ is2 hch2 hsmall2 p ((le p).size : Int)]
            cases hcb : chooseBest le sz is2 with
            | none => simp [hlt]
            | some j =>
              by_cases hjp : (le j).size < (le p).size
              · have hcast : ((le j).size : Int) < ((le p).size : Int) := by
                  exact_mod_cast hjp
                simp [hjp, hcast, lt_trans hcast hlt]
              · have hcast : ¬ (((le j).size : Int) < ((le p).size : Int)) := by
                  exact_mod_cast hjp
                simp [hjp, hcast, hlt]
          · rw [if_neg (fun hc => hlt (hlong ▸ hc.2.2)),
              ih _ is2 hch2 hsmall2 mi ms]
            cases hcb : chooseBest le sz is2 with
            | none => simp [hlt]
            | some j =>
              by_cases hjp : (le j).size < (le p).size
              · simp [hjp]
              · have h1 : ((le p).size : Int) ≤ ((le j).size : Int) := by
                  exact_mod_cast Nat.le_of_not_lt hjp
                have h2 : ¬ (((le j).size : Int) < ms) :=
                  fun hc => hlt (lt_of_le_of_lt h1 hc)
                simp [hjp, h2, hlt]
        · rw [if_neg (fun hc => hq ⟨hc.1, hc.2.1⟩), if_neg hq,
            ih _ is2 hch2 hsmall2 mi ms]

/-- The worst_fit loop computes the specification-side chooser over the
next-chain it scans, as long as every size on the chain stays below
INT_MAX (otherwise the int-typed tracker truncates). -/
theorem wfLoop_chooseWorst (le : Int → Node) (sz : Nat) :
    ∀ (fuel : Nat) (p : Int) (is : List Int),
    chainFrom le fuel p = some is →
    (∀ i ∈ is, (le i).size < 2147483647) →
    ∀ (mi ms : Int),
    wfLoop le sz fuel p mi ms =
      some (match chooseWorst le sz is with
            | none => mi
            | some j => if ms < ((le j).size : Int) then j else mi) := by
  intro fuel
  induction fuel with
  | zero => intro p is hch; exact absurd hch (by simp [chainFrom])
  | succ f ih =>
    intro p is hch hsmall mi ms
    by_cases hp : p = -1
    · subst hp
      have h2 : chainFrom le (f + 1) (-1) = some [] := rfl
      rw [h2] at hch
      injection hch with h3
      subst h3
      rfl
    · rw [show chainFrom le (f + 1) p =
        (if p = -1 then some [] else
          match chainFrom le f (le p).next with
          | none => none
          | some is2 => some (p :: is2)) from rfl, if_neg hp] at hch
      cases hch2 : chainFrom le f (le p).next with
      | none => rw [hch2] at hch; exact absurd hch (by simp)
      | some is2 =>
        rw [hch2] at hch
        simp only [Option.some.injEq] at hch
        subst hch
        have hsp : (le p).size < 2147483647 := hsmall p (by simp)
        have hsmall2 : ∀ i ∈ is2, (le i).size < 2147483647 :=
          fun i hi => hsmall i (by simp [hi])
        have hlong : longOfSizeT (le p).size = ((le p).size : Int) :=
          longOfSizeT_small _ (by omega)
        have hint : intOfSizeT (le p).size = ((le p).size : Int) :=
          intOfSizeT_small _ (by omega)
        rw [show wfLoop le sz (f + 1) p mi ms =
          (if p = -1 then some mi
            else if (le p).type = TYPE.H ∧ sz ≤ (le p).size ∧
                ms < longOfSizeT (le p).size then
              wfLoop le sz f (le p).next p (intOfSizeT (le p).size)
            else wfLoop le sz f (le p).next mi ms) from rfl, if_neg hp]
        rw [show chooseWorst le sz (p :: is2) =
          (if (le p).type = TYPE.H ∧ sz ≤ (le p).size then
            match chooseWorst le sz is2 with
            | none => some p
            | some j => if (le p).size < (le j).size then some j else some p
          else chooseWorst le sz is2) from rfl]
        by_cases hq : (le p).type = TYPE.H ∧ sz ≤ (le p).size
        · rw [if_pos hq]
          by_cases hlt : ms < ((le p).size : Int)
          · rw [if_pos ⟨hq.1, hq.2, by rw [hlong]; exact hlt⟩, hint,
              ih _ is2 hch2 hsmall2 p ((le p).size : Int)]
            cases hcb : chooseWorst le sz is2 with
            | none => simp [hlt]
            | some j =>
              by_cases hjp : (le p).size < (le j).size
              · have hcast : ((le p).size : Int) < ((le j).size : Int) := by
                  exact_mod_cast hjp
                simp [hjp, hcast, lt_trans hlt hcast]
              · have hcast : ¬ (((le p).size : Int) < ((le j).size : Int)) := by
                  exact_mod_cast hjp
                simp [hjp, hcast, hlt]
          · rw [if_neg (fun hc => hlt (hlong ▸ hc.2.2)),
              ih _ is2 hch2 hsmall2 mi ms]
            cases hcb : chooseWorst le sz is2 with
            | none => simp [hlt]
            | some j =>
              by_cases hjp : (le p).size < (le j).size
              · simp [hjp]
              · have h1 : ((le j).size : Int) ≤ ((le p).size : Int) := by
                  exact_mod_cast Nat.le_of_not_lt hjp
                have h2 : ¬ (ms < ((le j).size : Int)) :=
                  fun hc => hlt (lt_of_lt_of_le hc h1)
                simp [hjp, h2, hlt]
        · rw [if_neg (fun hc => hq ⟨hc.1, hc.2.1⟩), if_neg hq,
            ih _ is2 hch2 hsmall2 mi ms]

/-- A qualifying head keeps the best-chooser from answering none. -/
theorem chooseBest_ne_none (le : Int → Node) (sz : Nat) (i : Int)
    (is : List Int) (hq : (le i).type = TYPE.H ∧ sz ≤ (le i).size) :
    chooseBest le sz (i :: is) ≠ none := by
  simp only [chooseBest, if_pos hq]
  cases chooseBest le sz is with
  | none => simp
  | some j =>
    by_cases hlt : (le j).size < (le i).size
    · simp [hlt]
    · simp [hlt]

/-- A qualifying head keeps the worst-chooser from answering none. -/
theorem chooseWorst_ne_none (le : Int → Node) (sz : Nat) (i : Int)
    (is : List Int) (hq : (le i).type = TYPE.H ∧ sz ≤ (le i).size) :
    chooseWorst le sz (i :: is) ≠ none := by
  simp only [chooseWorst, if_pos hq]
  cases chooseWorst le sz is with
  | none => simp
  | some j =>
    by_cases hlt : (le i).size < (le j).size
    · simp [hlt]
    · simp [hlt]

/-- The best-chooser answers none exactly when no listed slot is a
qualifying Hole. -/
theorem chooseBest_none_iff (le : Int → Node) (sz : Nat) :
    ∀ l : List Int, chooseBest le sz l = none ↔
      ∀ i ∈ l, ¬((le i).type = TYPE.H ∧ sz ≤ (le i).size) := by
  intro l
  induction l with
  | nil => simp [chooseBest]
  | cons i is ih =>
    by_cases hq : (le i).type = TYPE.H ∧ sz ≤ (le i).size
    · constructor
      · intro h
        exact absurd h (chooseBest_ne_none le sz i is hq)
      · intro h
        exact absurd hq (h i (by simp))
    · rw [show chooseBest le sz (i :: is) =
        (if (le i).type = TYPE.H ∧ sz ≤ (le i).size then
          match chooseBest le sz is with
          | none => some i
          | some j => if (le j).size < (le i).size then some j else some i
        else chooseBest le sz is) from rfl, if_neg hq, ih]
      constructor
      · intro h k hk
        rcases List.mem_cons.mp hk with rfl | hk2
        · exact hq
        · exact h k hk2
      · intro h k hk
        exact h k (by simp [hk])

/-- The worst-chooser answers none exactly when no listed slot is a
qualifying Hole. -/
theorem chooseWorst_none_iff (le : Int → Node) (sz : Nat) :
    ∀ l : List Int, chooseWorst le sz l = none ↔
      ∀ i ∈ l, ¬((le i).type = TYPE.H ∧ sz ≤ (le i).size) := by
  intro l
  induction l with
  | nil => simp [chooseWorst]
  | cons i is ih =>
    by_cases hq : (le i).type = TYPE.H ∧ sz ≤ (le i).size
    · constructor
      · intro h
        exact absurd h (chooseWorst_ne_none le sz i is hq)
      · intro h
        exact absurd hq (h i (by simp))
    · rw [show chooseWorst le sz (i :: is) =
        (if (le i).type = TYPE.H ∧ sz ≤ (le i).size then
          match chooseWorst le sz is with
          | none => some i
          | some j => if (le i).size < (le j).size then some j else some i
        else chooseWorst le sz is) from rfl, if_neg hq, ih]
      constructor
      · intro h k hk
        rcases List.mem_cons.mp hk with rfl | hk2
        · exact hq
        · exact h k hk2
      · intro h k hk
        exact h k (by simp [hk])

/-- A best-chooser answer is a qualifying Hole of the list, of smallest
size among the qualifying ones, and earliest among those that tie. -/
theorem chooseBest_some_spec (le : Int → Node) (sz : Nat) :
    ∀ (l : List Int) (j : Int), chooseBest le sz l = some j →
      j ∈ l ∧ ((le j).type = TYPE.H ∧ sz ≤ (le j).size) ∧
      (∀ i ∈ l, (le i).type = TYPE.H → sz ≤ (le i).size →
        (le j).size ≤ (le i).size) ∧
      ∃ l1 l2, l = l1 ++ j :: l2 ∧
        ∀ i ∈ l1, (le i).type = TYPE.H → sz ≤ (le i).size →
          (le j).size < (le i).size := by
  intro l
  induction l with
  | nil => intro j h; exact absurd h (by simp [chooseBest])
  | cons i is ih =>
    intro j h
    rw [show chooseBest le sz (i :: is) =
      (if (le i).type = TYPE.H ∧ sz ≤ (le i).size then
        match chooseBest le sz is with
        | none => some i
        | some j2 => if (le j2).size < (le i).size then some j2 else some i
      else chooseBest le sz is) from rfl] at h
    by_cases hq : (le i).type = TYPE.H ∧ sz ≤ (le i).size
    · rw [if_pos hq] at h
      cases hcb : chooseBest le sz is with
      | none =>
        rw [hcb] at h
        injection h with h1
        subst h1
        have hnone := (chooseBest_none_iff le sz is).mp hcb
        refine ⟨by simp, hq, ?_, [], is, by simp, by simp⟩
        intro k hk ht hs
        rcases List.mem_cons.mp hk with rfl | hk2
        · exact le_refl _
        · exact absurd ⟨ht, hs⟩ (hnone k hk2)
      | some j2 =>
        rw [hcb] at h
        obtain ⟨hmem, hqj2, hmin, l1, l2, hdec, hstrict⟩ := ih j2 hcb
        by_cases hjp : (le j2).size < (le i).size
        · simp only [hjp, if_true, Option.some.injEq] at h
          subst h
          refine ⟨by simp [hmem], hqj2, ?_, i :: l1, l2, by simp [hdec], ?_⟩
          · intro k hk ht hs
            rcases List.mem_cons.mp hk with rfl | hk2
            · exact le_of_lt hjp
            · exact hmin k hk2 ht hs
          · intro k hk ht hs
            rcases List.mem_cons.mp hk with rfl | hk2
            · exact hjp
            · exact hstrict k hk2 ht hs
        · simp only [hjp, if_false, Option.some.injEq] at h
          subst h
          have hij : (le i).size ≤ (le j2).size := Nat.le_of_not_lt hjp
          refine ⟨by simp, hq, ?_, [], is, by simp, by simp⟩
          intro k hk ht hs
          rcases List.mem_cons.mp hk with rfl | hk2
          · exact le_refl _
          · exact le_trans hij (hmin k hk2 ht hs)
    · rw [if_neg hq] at h
      obtain ⟨hmem, hqj, hmin, l1, l2, hdec, hstrict⟩ := ih j h
      refine ⟨by simp [hmem], hqj, ?_, i :: l1, l2, by simp [hdec], ?_⟩
      · intro k hk ht hs
        rcases List.mem_cons.mp hk with rfl | hk2
        · exact absurd ⟨ht, hs⟩ hq
        · exact hmin k hk2 ht hs
      · intro k hk ht hs
        rcases List.mem_cons.mp hk with rfl | hk2
        · exact absurd ⟨ht, hs⟩ hq
        · exact hstrict k hk2 ht hs

/-- A worst-chooser answer is a qualifying Hole of the list, of largest
size among the qualifying ones, and earliest among those that tie. -/
theorem chooseWorst_some_spec (le : Int → Node) (sz : Nat) :
    ∀ (l : List Int) (j : Int), chooseWorst le sz l = some j →
      j ∈ l ∧ ((le j).type = TYPE.H ∧ sz ≤ (le j).size) ∧
      (∀ i ∈ l, (le i).type = TYPE.H → sz ≤ (le i).size →
        (le i).size ≤ (le j).size) ∧
      ∃ l1 l2, l = l1 ++ j :: l2 ∧
        ∀ i ∈ l1, (le i).type = TYPE.H → sz ≤ (le i).size →
          (le i).size < (le j).size := by
  intro l
  induction l with
  | nil => intro j h; exact absurd h (by simp [chooseWorst])
  | cons i is ih =>
    intro j h
    rw [show chooseWorst le sz (i :: is) =
      (if (le i).type = TYPE.H ∧ sz ≤ (le i).size then
        match chooseWorst le sz is with
        | none => some i
        | some j2 => if (le i).size < (le j2).size then some j2 else some i
      else chooseWorst le sz is) from rfl] at h
    by_cases hq : (le i).type = TYPE.H ∧ sz ≤ (le i).size
    · rw [if_pos hq] at h
      cases hcb : chooseWorst le sz is with
      | none =>
        rw [hcb] at h
        injection h with h1
        subst h1
        have hnone := (chooseWorst_none_iff le sz is).mp hcb
        refine ⟨by simp, hq, ?_, [], is, by simp, by simp⟩
        intro k hk ht hs
        rcases List.mem_cons.mp hk with rfl | hk2
        · exact le_refl _
        · exact absurd ⟨ht, hs⟩ (hnone k hk2)
      | some j2 =>
        rw [hcb] at h
        obtain ⟨hmem, hqj2, hmax, l1, l2, hdec, hstrict⟩ := ih j2 hcb
        by_cases hjp : (le i).size < (le j2).size
        · simp only [hjp, if_true, Option.some.injEq] at h
          subst h
          refine ⟨by simp [hmem], hqj2, ?_, i :: l1, l2, by simp [hdec], ?_⟩
          · intro k hk ht hs
            rcases List.mem_cons.mp hk with rfl | hk2
            · exact le_of_lt hjp
            · exact hmax k hk2 ht hs
          · intro k hk ht hs
            rcases List.mem_cons.mp hk with rfl | hk2
            · exact hjp
            · exact hstrict k hk2 ht hs
        · simp only [hjp, if_false, Option.some.injEq] at h
          subst h
          have hij : (le j2).size ≤ (le i).size := Nat.le_of_not_lt hjp
          refine ⟨by simp, hq, ?_, [], is, by simp, by simp⟩
          intro k hk ht hs
          rcases List.mem_cons.mp hk with rfl | hk2
          · exact le_refl _
          · exact le_trans (hmax k hk2 ht hs) hij
    · rw [if_neg hq] at h
      obtain ⟨hmem, hqj, hmax, l1, l2, hdec, hstrict⟩ := ih j h
      refine ⟨by simp [hmem], hqj, ?_, i :: l1, l2, by simp [hdec], ?_⟩
      · intro k hk ht hs
        rcases List.mem_cons.mp hk with rfl | hk2
        · exact absurd ⟨ht, hs⟩ hq
        · exact hmax k hk2 ht hs
      · intro k hk ht hs
        rcases List.mem_cons.mp hk with rfl | hk2
        · exact absurd ⟨ht, hs⟩ hq
        · exact hstrict k hk2 ht hs

/-- C7 (amended).  Over the live list traverse_back and the next-chain give
to the scan (and provided every listed block's size is below INT_MAX =
2147483647, the range the int-typed trackers handle), best_fit returns the
index chosen by the specification-side minimal chooser and worst_fit the
maximal one: -1 exactly when no listed Hole is large enough; otherwise a
qualifying Hole that is smallest (respectively largest) among the
qualifying ones and earliest in address order among those that tie. -/
theorem best_worst_fit_select_min_max (fuel : Nat) (st st1 : AState)
    (sz : Nat) (hd : Int) (is : List Int)
    (htb : traverse_back fuel st = some (hd, st1))
    (hch : chainFrom st.ledger fuel hd = some is)
    (hsmall : ∀ i ∈ is, (st.ledger i).size < 2147483647) :
    best_fit fuel st sz = some (optIdx (chooseBest st.ledger sz is), st1) ∧
    worst_fit fuel st sz = some (optIdx (chooseWorst st.ledger sz is), st1) ∧
    (chooseBest st.ledger sz is = none ↔
      ∀ i ∈ is, ¬((st.ledger i).type = TYPE.H ∧ sz ≤ (st.ledger i).size)) ∧
    (chooseWorst st.ledger sz is = none ↔
      ∀ i ∈ is, ¬((st.ledger i).type = TYPE.H ∧ sz ≤ (st.ledger i).size)) ∧
    (∀ j, chooseBest st.ledger sz is = some j →
      j ∈ is ∧ ((st.ledger j).type = TYPE.H ∧ sz ≤ (st.ledger j).size) ∧
      (∀ i ∈ is, (st.ledger i).type = TYPE.H → sz ≤ (st.ledger i).size →
        (st.ledger j).size ≤ (st.ledger i).size) ∧
      ∃ l1 l2, is = l1 ++ j :: l2 ∧
        ∀ i ∈ l1, (st.ledger i).type = TYPE.H → sz ≤ (st.ledger i).size →
          (st.ledger j).size < (st.ledger i).size) ∧
    (∀ j, chooseWorst st.ledger sz is = some j →
      j ∈ is ∧ ((st.ledger j).type = TYPE.H ∧ sz ≤ (st.ledger j).size) ∧
      (∀ i ∈ is, (st.ledger i).type = TYPE.H → sz ≤ (st.ledger i).size →
        (st.ledger i).size ≤ (st.ledger j).size) ∧
      ∃ l1 l2, is = l1 ++ j :: l2 ∧
        ∀ i ∈ l1, (st.ledger i).type = TYPE.H → sz ≤ (st.ledger i).size →
          (st.ledger i).size < (st.ledger j).size) := by
  have hst := traverse_back_state fuel st st1 hd htb
  have hle : st1.ledger = st.ledger := hst.1
  refine ⟨?_, ?_, chooseBest_none_iff st.ledger sz is,
    chooseWorst_none_iff st.ledger sz is,
    fun j hj => chooseBest_some_spec st.ledger sz is j hj,
    fun j hj => chooseWorst_some_spec st.ledger sz is j hj⟩
  · simp only [best_fit, htb]
    rw [hle, bfLoop_chooseBest st.ledger sz fuel hd is hch hsmall (-1) INT_MAX]
    cases hcb : chooseBest st.ledger sz is with
    | none => rfl
    | some j =>
      have hjmem : j ∈ is := (chooseBest_some_spec st.ledger sz is j hcb).1
      have hjlt : ((st.ledger j).size : Int) < INT_MAX := by
        have := hsmall j hjmem
        unfold INT_MAX
        exact_mod_cast this
      simp [optIdx, hjlt]
  · simp only [worst_fit, htb]
    rw [hle, wfLoop_chooseWorst st.ledger sz fuel hd is hch hsmall (-1) (-1)]
    cases hcw : chooseWorst st.ledger sz is with
    | none => rfl
    | some j =>
      have hjlt : (-1 : Int) < ((st.ledger j).size : Int) := by
        have h0 : (0 : Int) ≤ ((st.ledger j).size : Int) := Int.natCast_nonneg _
        omega
      simp [optIdx, hjlt]

/-- Witness for C7 at init(100, BEST_FIT): the live list is the single Hole
in slot 0 of size 100 < INT_MAX, and both strategies answer through the
specification-side choosers. -/
theorem best_worst_fit_select_min_max_witness :
    (traverse_back 20 st100BF = some (0, w7st1) ∧
     chainFrom st100BF.ledger 20 0 = some [0] ∧
     (∀ i ∈ ([0] : List Int), (st100BF.ledger i).size < 2147483647)) ∧
    (best_fit 20 st100BF 4 =
      some (optIdx (chooseBest st100BF.ledger 4 [0]), w7st1) ∧
     worst_fit 20 st100BF 4 =
      some (optIdx (chooseWorst st100BF.ledger 4 [0]), w7st1)) :=
  ⟨⟨rfl, rfl, by decide⟩,
   ⟨(best_worst_fit_select_min_max 20 st100BF w7st1 4 0 [0] rfl rfl
      (by decide)).1,
    (best_worst_fit_select_min_max 20 st100BF w7st1 4 0 [0] rfl rfl
      (by decide)).2.1⟩⟩

end Mavalloc
